import Mathlib

/-!
Shallow embedding of the BinaryAssetManager core (src/src/src.ts).

The manager owns an optional store handle `db` (IndexedDB object store keyed
by `id`, modelled as an association list of records in enumeration order), a
URL cache (`Map` from id to minted object URL, modelled as an association
list), a uuid source (modelled as a counter: `createFileID c` stands for the
c-th freshly drawn `asset:<uuid>` string) and an object-URL source (also a
counter; `"blob:" ++ c` stands for the c-th URL minted by
`URL.createObjectURL`).  Revoked object URLs are recorded in `revoked`.

Blobs are byte lists.  The zip codec is an external collaborator; an archive
blob is modelled as the list of named entries it contains.  Failure of
`zipWriter.add` on a particular entry (caught and logged by the source) is
modelled by an oracle `fails : String → List Nat → Bool` consulted per entry.

Each operation takes the manager state and returns `Except Err result`
together with the post state, mirroring promise resolution/rejection.
-/

/-- Error taxonomy of the embedded operations.  The source throws
`Error("Database not initialized")` on every explicit `if (!this.db)` guard;
the spec calls this `NotInitialized`. -/
inductive Err where
  | notInitialized
deriving DecidableEq

/-- Stored asset record (interface `AssetEntry`): id key, display name,
payload blob, size captured at write time, and the placeholder hash. -/
structure AssetEntry where
  id : String
  name : String
  file : List Nat
  size : Nat
  hash : String
deriving DecidableEq

/-- Input to `addFile`/`syncFile`: a `File` (named) or a plain `Blob`
(unnamed); `fname` is `some n` exactly when the input is a `File` named `n`. -/
structure InFile where
  data : List Nat
  fname : Option String
deriving DecidableEq

/-- One entry of an archive blob, as exposed by the zip codec: stored
filename, decoded payload, directory-marker flag. -/
structure ZipEntry where
  filename : String
  data : List Nat
  directory : Bool
deriving DecidableEq

/-- Manager instance state: `db` is `none` before `initialize()` completes. -/
structure ManagerState where
  db : Option (List AssetEntry)
  urlCache : List (String × String)
  idCounter : Nat
  urlCounter : Nat
  revoked : List String
deriving DecidableEq

/-- The c-th identifier drawn from the uuid source:
`` `asset:${uuid()}` `` in `createFileID`. -/
def createFileID (c : Nat) : String := "asset:" ++ Nat.repr c

/-- JavaScript `a || b` on an optional string argument: `undefined` and the
empty string are falsy and fall through to the fallback. -/
def jsOrElse (s : Option String) (fallback : String) : String :=
  match s with
  | some v => if v = "" then fallback else v
  | none => fallback

/-- IndexedDB `store.get(k)` on a store with `keyPath: "id"`. -/
def storeGet (store : List AssetEntry) (k : String) : Option AssetEntry :=
  store.find? (fun e => e.id = k)

/-- IndexedDB `store.put(e)`: insert-or-replace by `id`. -/
def storePut (store : List AssetEntry) (e : AssetEntry) : List AssetEntry :=
  if store.any (fun x => x.id = e.id) then
    store.map (fun x => if x.id = e.id then e else x)
  else store ++ [e]

/-- IndexedDB `store.delete(k)`. -/
def storeDelete (store : List AssetEntry) (k : String) : List AssetEntry :=
  store.filter (fun e => ¬ e.id = k)

/-- Map lookup `urlCache.get(k)` (also `urlCache.has(k)` via `isSome`). -/
def cacheGet (cache : List (String × String)) (k : String) : Option String :=
  (cache.find? (fun p => p.fst = k)).map Prod.snd

/-- Map update `urlCache.set(k, v)`. -/
def cacheSet (cache : List (String × String)) (k v : String) :
    List (String × String) :=
  if cache.any (fun p => p.fst = k) then
    cache.map (fun p => if p.fst = k then (k, v) else p)
  else cache ++ [(k, v)]

/-- Map removal `urlCache.delete(k)`. -/
def cacheDelete (cache : List (String × String)) (k : String) :
    List (String × String) :=
  cache.filter (fun p => ¬ p.fst = k)

/-- The `initialize()` success path: opens the durable store (its persisted
contents are `contents`) and transitions the handle to ready. -/
def openDB (st : ManagerState) (contents : List AssetEntry) : ManagerState :=
  { st with db := some contents }

/-- Method `addFile(file, name?)`: draws a fresh id (before the guard), then
fails when the handle is absent, else puts the new record. -/
def addFile (st : ManagerState) (file : InFile) (nameArg : Option String) :
    Except Err String × ManagerState :=
  let id := createFileID st.idCounter
  let st1 := { st with idCounter := st.idCounter + 1 }
  match st1.db with
  | none => (Except.error Err.notInitialized, st1)
  | some store =>
    let item : AssetEntry :=
      { id := id
        name := jsOrElse nameArg (match file.fname with | some n => n | none => id)
        file := file.data
        size := file.data.length
        hash := "hash" }
    (Except.ok id, { st1 with db := some (storePut store item) })

/-- Method `addAssetEntry(entry)`. -/
def addAssetEntry (st : ManagerState) (entry : AssetEntry) :
    Except Err String × ManagerState :=
  match st.db with
  | none => (Except.error Err.notInitialized, st)
  | some store =>
    (Except.ok entry.id, { st with db := some (storePut store entry) })

/-- Method `getFile(fileID)`: absence resolves to `null`, not an error. -/
def getFile (st : ManagerState) (fileID : String) :
    Except Err (Option AssetEntry) × ManagerState :=
  match st.db with
  | none => (Except.error Err.notInitialized, st)
  | some store => (Except.ok (storeGet store fileID), st)

/-- Method `syncFile(file, id)`: put at the caller-chosen id; the record name
is `(file as File).name ?? id` (nullish coalescing, not `||`). -/
def syncFile (st : ManagerState) (file : InFile) (id : String) :
    Except Err String × ManagerState :=
  match st.db with
  | none => (Except.error Err.notInitialized, st)
  | some store =>
    let item : AssetEntry :=
      { id := id
        name := (match file.fname with | some n => n | none => id)
        file := file.data
        size := file.data.length
        hash := "hash" }
    (Except.ok id, { st with db := some (storePut store item) })

/-- Method `getFileUrl(fileID)`: guard, cache hit, else `getFile`; on a found
record mint a fresh object URL, cache it and return it. -/
def getFileUrl (st : ManagerState) (fileID : String) :
    Except Err (Option String) × ManagerState :=
  match st.db with
  | none => (Except.error Err.notInitialized, st)
  | some store =>
    match cacheGet st.urlCache fileID with
    | some url => (Except.ok (some url), st)
    | none =>
      match storeGet store fileID with
      | none => (Except.ok none, st)
      | some _ =>
        let url := "blob:" ++ Nat.repr st.urlCounter
        (Except.ok (some url),
          { st with
              urlCounter := st.urlCounter + 1
              urlCache := cacheSet st.urlCache fileID url })

/-- Method `getTotalUsage()`: `getAll()` then
`reduce((acc, file) => acc + file.size, 0)`. -/
def getTotalUsage (st : ManagerState) : Except Err Nat × ManagerState :=
  match st.db with
  | none => (Except.error Err.notInitialized, st)
  | some store =>
    (Except.ok (store.foldl (fun acc f => acc + f.size) 0), st)

/-- JavaScript `name.split(".")` at the character level: split on every dot;
the empty string yields one empty part, adjacent and trailing dots yield
empty parts (structural recursion, so concrete runs reduce in the kernel). -/
def splitOnDot : List Char → List (List Char)
  | [] => [[]]
  | c :: rest =>
    match splitOnDot rest with
    | [] => [[]]
    | h :: t => if c = '.' then [] :: h :: t else (c :: h) :: t

/-- JavaScript `parts.join(".")` at the character level. -/
def joinDot : List (List Char) → List Char
  | [] => []
  | [p] => p
  | p :: rest => p ++ '.' :: joinDot rest

/-- One candidate of the collision loop body in `downloadAsZip`: split
`file.name` on every `.`; with an extension present, pop it and append
`_${counter}` to the joined stem; otherwise append `_${counter}` directly. -/
def splitRename (name : String) (counter : Nat) : String :=
  let nameParts := splitOnDot name.data
  if nameParts.length > 1 then
    ⟨joinDot nameParts.dropLast ++ ('_' :: (Nat.repr counter).data)
      ++ ('.' :: nameParts.getLastD [])⟩
  else
    ⟨name.data ++ ('_' :: (Nat.repr counter).data)⟩

/-- The `while (usedNames.has(uniqueName))` loop of `downloadAsZip`, with an
explicit fuel argument (the loop in the source is unbounded; the lemma
`uniqueName_eq_specResolve` below proves the fuel supplied by `uniqueName`
always suffices, so the fueled function matches the loop extensionally). -/
def renameUntilFree (used : List String) (name : String) :
    Nat → Nat → String → String
  | 0, _, current => current
  | fuel + 1, counter, current =>
    if current ∈ used then
      renameUntilFree used name fuel (counter + 1) (splitRename name counter)
    else current

/-- Unique archive name chosen for a record named `name` given the set of
names already used in this archive: start from `name` with `counter = 1`. -/
def uniqueName (used : List String) (name : String) : String :=
  renameUntilFree used name (used.length + 2) 1 name

/-- The per-record loop of `downloadAsZip`: thread `usedNames` (the chosen
name is reserved before the `zipWriter.add` attempt), and keep the entry
unless the add attempt fails, in which case it is logged and skipped. -/
def zipLoop (fails : String → List Nat → Bool) :
    List AssetEntry → List String → List ZipEntry
  | [], _ => []
  | f :: rest, used =>
    let u := uniqueName used f.name
    (if fails u f.file then [] else [⟨u, f.file, false⟩])
      ++ zipLoop fails rest (used ++ [u])

/-- Method `downloadAsZip()`: guard, `getAll()`, the entry loop, close. -/
def downloadAsZip (fails : String → List Nat → Bool) (st : ManagerState) :
    Except Err (List ZipEntry) × ManagerState :=
  match st.db with
  | none => (Except.error Err.notInitialized, st)
  | some store => (Except.ok (zipLoop fails store []), st)

/-- Oracle for the runs in which every `zipWriter.add` succeeds. -/
def noFail : String → List Nat → Bool := fun _ _ => false

/-- Method `uploadZip(zipFile)`: for each non-directory entry, wrap the
decoded payload in a `File` named by the entry's stored filename and feed it
to `addFile`; a rejection of `addFile` aborts the remaining entries. -/
def uploadZip : ManagerState → List ZipEntry → Except Err Unit × ManagerState
  | st, [] => (Except.ok (), st)
  | st, e :: rest =>
    if e.directory then uploadZip st rest
    else
      match addFile st ⟨e.data, some e.filename⟩ none with
      | (Except.error err, st1) => (Except.error err, st1)
      | (Except.ok _, st1) => uploadZip st1 rest

/-- Method `deleteFile(fileId)`: the store delete is behind optional chaining
(`this.db?.`), so an absent handle skips it without failing; the cached URL,
if truthy (JavaScript `if (url)`), is revoked and evicted either way. -/
def deleteFile (st : ManagerState) (fileId : String) :
    Except Err Unit × ManagerState :=
  let db1 := match st.db with
    | none => none
    | some store => some (storeDelete store fileId)
  let st1 := { st with db := db1 }
  match cacheGet st.urlCache fileId with
  | none => (Except.ok (), st1)
  | some url =>
    if url = "" then (Except.ok (), st1)
    else
      (Except.ok (),
        { st1 with
            revoked := st1.revoked ++ [url]
            urlCache := cacheDelete st1.urlCache fileId })

/-- Method `clear()`: the store clear is behind optional chaining; every
cached URL is revoked (no truthiness check here) and the cache is emptied. -/
def clear (st : ManagerState) : Except Err Unit × ManagerState :=
  let db1 := match st.db with
    | none => none
    | some _ => some ([] : List AssetEntry)
  (Except.ok (),
    { st with
        db := db1
        revoked := st.revoked ++ st.urlCache.map Prod.snd
        urlCache := [] })

/-- Convenience: a freshly initialized manager holding `store`. -/
def mkState (store : List AssetEntry) : ManagerState :=
  { db := some store, urlCache := [], idCounter := 0, urlCounter := 0,
    revoked := [] }

/-- Freshness of the uuid source relative to a store: no stored id collides
with any identifier the source may still draw.  This is the probabilistic
uniqueness assumption of the spec made explicit. -/
def FreshFrom (store : List AssetEntry) (ctr : Nat) : Prop :=
  ∀ e ∈ store, ∀ c, ctr ≤ c → e.id ≠ createFileID c

/-- Well-formedness of the URL cache: cached object URLs are never the empty
string (true of every reachable state, since `getFileUrl` only caches minted
`blob:` URLs); `deleteFile`'s truthiness check depends on it. -/
def CacheWF (st : ManagerState) : Prop :=
  ∀ p ∈ st.urlCache, p.snd ≠ ""

/-! ### Injectivity of the decimal rendering used by the counters

The archive rename loop appends a decimal counter and the id source embeds a
decimal index; both need that `Nat.repr` is injective.  We prove it by
exhibiting a decoder. -/

/-- Numeric value of a decimal digit character. -/
def digitVal (c : Char) : Nat := c.toNat - 48

/-- Decoder for a most-significant-first list of decimal digit characters. -/
def decodeDigits (l : List Char) : Nat :=
  l.foldl (fun acc c => acc * 10 + digitVal c) 0

theorem digitVal_digitChar (d : Nat) (h : d < 10) :
    digitVal (Nat.digitChar d) = d := by
  interval_cases d <;> decide

theorem toDigitsCore_append (fuel : Nat) : ∀ (n : Nat) (ds : List Char),
    Nat.toDigitsCore 10 fuel n ds = Nat.toDigitsCore 10 fuel n [] ++ ds := by
  induction fuel with
  | zero => intro n ds; simp [Nat.toDigitsCore]
  | succ fuel ih =>
    intro n ds
    simp only [Nat.toDigitsCore]
    by_cases h : n / 10 = 0
    · simp [h]
    · rw [if_neg h, if_neg h, ih (n / 10) (Nat.digitChar (n % 10) :: ds),
        ih (n / 10) [Nat.digitChar (n % 10)], List.append_assoc]
      rfl

theorem decodeDigits_toDigitsCore (fuel : Nat) : ∀ n : Nat, n < fuel →
    decodeDigits (Nat.toDigitsCore 10 fuel n []) = n := by
  induction fuel with
  | zero => intro n h; omega
  | succ fuel ih =>
    intro n h
    simp only [Nat.toDigitsCore]
    by_cases h0 : n / 10 = 0
    · rw [if_pos h0]
      show decodeDigits [Nat.digitChar (n % 10)] = n
      simp only [decodeDigits, List.foldl_cons, List.foldl_nil]
      rw [digitVal_digitChar (n % 10) (by omega)]
      omega
    · rw [if_neg h0, toDigitsCore_append]
      have hlt : n / 10 < fuel := by omega
      have hdec := ih (n / 10) hlt
      simp only [decodeDigits, List.foldl_append, List.foldl_cons,
        List.foldl_nil] at hdec ⊢
      rw [hdec, digitVal_digitChar (n % 10) (by omega)]
      omega

theorem decodeDigits_repr_data (n : Nat) :
    decodeDigits (Nat.repr n).data = n := by
  have h : (Nat.repr n).data = Nat.toDigitsCore 10 (n + 1) n [] := rfl
  rw [h]
  exact decodeDigits_toDigitsCore (n + 1) n (Nat.lt_succ_self n)

theorem repr_inj {a b : Nat} (h : Nat.repr a = Nat.repr b) : a = b := by
  have hd : (Nat.repr a).data = (Nat.repr b).data := by rw [h]
  have ha := decodeDigits_repr_data a
  have hb := decodeDigits_repr_data b
  rw [← ha, ← hb, hd]

theorem string_append_right_inj {r1 r2 : String} (A B : String)
    (h : A ++ r1 ++ B = A ++ r2 ++ B) : r1 = r2 := by
  have hd : r1.data = r2.data := by
    have h2 := congrArg String.data h
    simpa [String.data_append, List.append_assoc] using h2
  cases r1; cases r2; exact congrArg String.mk hd

theorem createFileID_inj {a b : Nat} (h : createFileID a = createFileID b) :
    a = b := by
  apply repr_inj
  apply string_append_right_inj "asset:" ""
  simpa [createFileID] using h

theorem splitRename_inj (name : String) {c1 c2 : Nat}
    (h : splitRename name c1 = splitRename name c2) : c1 = c2 := by
  unfold splitRename at h
  apply repr_inj
  apply String.ext
  by_cases hl : (splitOnDot name.data).length > 1
  · rw [if_pos hl, if_pos hl] at h
    have hd := congrArg String.data h
    simp only [List.cons_append, List.append_assoc,
      List.append_cancel_left_eq, List.cons.injEq, true_and] at hd
    exact List.append_cancel_right hd
  · rw [if_neg hl, if_neg hl] at h
    have hd := congrArg String.data h
    simp only [List.append_cancel_left_eq, List.cons.injEq, true_and] at hd
    exact hd

/-! ### The rename policy, transcribed from the spec's words

`specResolve` renders section 4.5 step 2 of the spec: keep a name not yet
used in this archive; otherwise append `_N` to the stem, `N` starting at 1
and incrementing until the composed name is unused.  `specNames` renders the
iteration over records in enumeration order.  The refinement theorem for C2
shows the source's while loop computes exactly this. -/

theorem exists_splitRename_free_le (used : List String) (name : String) :
    ∃ k, k ≤ used.length ∧ splitRename name (k + 1) ∉ used := by
  by_contra hc
  push_neg at hc
  have hmaps : ∀ k ∈ Finset.range (used.length + 1),
      splitRename name (k + 1) ∈ used.toFinset := by
    intro k hk
    rw [Finset.mem_range] at hk
    rw [List.mem_toFinset]
    exact hc k (by omega)
  have hcard : used.toFinset.card < (Finset.range (used.length + 1)).card := by
    rw [Finset.card_range]
    exact Nat.lt_succ_of_le used.toFinset_card_le
  obtain ⟨a, _, b, _, hab, heq⟩ :=
    Finset.exists_ne_map_eq_of_card_lt_of_maps_to hcard hmaps
  exact hab (by have := splitRename_inj name heq; omega)

theorem exists_splitRename_free (used : List String) (name : String) :
    ∃ k, splitRename name (k + 1) ∉ used := by
  obtain ⟨k, _, hk⟩ := exists_splitRename_free_le used name
  exact ⟨k, hk⟩

/-- The least `N ≥ 1` for which the composed rename of `name` is unused. -/
def leastFree (used : List String) (name : String) : Nat :=
  Nat.find (exists_splitRename_free used name) + 1

theorem leastFree_pos (used : List String) (name : String) :
    1 ≤ leastFree used name := by
  unfold leastFree; omega

theorem leastFree_free (used : List String) (name : String) :
    splitRename name (leastFree used name) ∉ used :=
  Nat.find_spec (exists_splitRename_free used name)

theorem leastFree_min (used : List String) (name : String) :
    ∀ k, 1 ≤ k → k < leastFree used name → splitRename name k ∈ used := by
  intro k h1 h2
  unfold leastFree at h2
  have hlt : k - 1 < Nat.find (exists_splitRename_free used name) := by omega
  have hmin := Nat.find_min (exists_splitRename_free used name) hlt
  have hk : k - 1 + 1 = k := by omega
  rw [hk] at hmin
  exact not_not.mp hmin

theorem leastFree_le (used : List String) (name : String) :
    leastFree used name ≤ used.length + 1 := by
  obtain ⟨k, hk, hfree⟩ := exists_splitRename_free_le used name
  have := Nat.find_min' (exists_splitRename_free used name) hfree
  unfold leastFree; omega

/-- Spec-side resolution of one display name against the names already used
in this archive; the first occurrence of a name is never renamed. -/
def specResolve (used : List String) (name : String) : String :=
  if name ∈ used then splitRename name (leastFree used name) else name

/-- Spec-side naming of the whole archive, iterating display names in store
enumeration order and accumulating the used set. -/
def specNames : List String → List String → List String
  | [], _ => []
  | n :: rest, used =>
    let u := specResolve used n
    u :: specNames rest (used ++ [u])

theorem renameUntilFree_succ (used : List String) (name : String)
    (fuel counter : Nat) (current : String) :
    renameUntilFree used name (fuel + 1) counter current =
      if current ∈ used then
        renameUntilFree used name fuel (counter + 1) (splitRename name counter)
      else current := rfl

theorem renameUntilFree_eq (used : List String) (name : String) (N : Nat)
    (hfree : splitRename name N ∉ used)
    (hmin : ∀ k, 1 ≤ k → k < N → splitRename name k ∈ used) :
    ∀ fuel c, 1 ≤ c → c ≤ N → N - c < fuel →
    renameUntilFree used name fuel (c + 1) (splitRename name c)
      = splitRename name N := by
  intro fuel
  induction fuel with
  | zero => intro c _ _ h; omega
  | succ fuel ih =>
    intro c hc1 hcN hfuel
    rw [renameUntilFree_succ]
    by_cases hcase : c = N
    · rw [hcase, if_neg hfree]
    · have hlt : c < N := by omega
      rw [if_pos (hmin c hc1 hlt)]
      exact ih (c + 1) (by omega) (by omega) (by omega)

theorem uniqueName_eq_specResolve (used : List String) (name : String) :
    uniqueName used name = specResolve used name := by
  unfold uniqueName specResolve
  by_cases h : name ∈ used
  · rw [if_pos h]
    have hstep : renameUntilFree used name (used.length + 2) 1 name
        = renameUntilFree used name (used.length + 1) 2 (splitRename name 1) :=
      by rw [renameUntilFree_succ, if_pos h]
    rw [hstep]
    have hle := leastFree_le used name
    have hpos := leastFree_pos used name
    exact renameUntilFree_eq used name (leastFree used name)
      (leastFree_free used name) (leastFree_min used name)
      (used.length + 1) 1 (by omega) (by omega) (by omega)
  · rw [if_neg h, renameUntilFree_succ, if_neg h]

theorem zipLoop_filter (fails : String → List Nat → Bool)
    (store : List AssetEntry) : ∀ used,
    zipLoop fails store used =
      (zipLoop noFail store used).filter
        (fun e => !(fails e.filename e.data)) := by
  induction store with
  | nil => intro used; rfl
  | cons f rest ih =>
    intro used
    simp only [zipLoop, noFail]
    rw [ih (used ++ [uniqueName used f.name])]
    by_cases hf : fails (uniqueName used f.name) f.file
    · simp [hf]
    · simp [hf]

theorem zipLoop_noFail_names (store : List AssetEntry) : ∀ used,
    (zipLoop noFail store used).map ZipEntry.filename
      = specNames (store.map AssetEntry.name) used := by
  induction store with
  | nil => intro used; rfl
  | cons f rest ih =>
    intro used
    simp only [zipLoop, noFail, List.map_cons, specNames,
      Bool.false_eq_true, if_false, List.singleton_append]
    rw [← uniqueName_eq_specResolve]
    simp only [List.map_cons, ih]

theorem zipLoop_noFail_data (store : List AssetEntry) : ∀ used,
    (zipLoop noFail store used).map ZipEntry.data
      = store.map AssetEntry.file := by
  induction store with
  | nil => intro used; rfl
  | cons f rest ih =>
    intro used
    simp only [zipLoop, noFail, Bool.false_eq_true, if_false,
      List.singleton_append, List.map_cons, ih]

/-! ### Store and cache lemmas -/

theorem storeGet_eq_none (store : List AssetEntry) (k : String) :
    storeGet store k = none ↔ ∀ e ∈ store, ¬ e.id = k := by
  unfold storeGet
  rw [List.find?_eq_none]
  constructor
  · intro h e he; have := h e he; simpa using this
  · intro h e he; simpa using h e he

theorem storePut_of_absent (store : List AssetEntry) (e : AssetEntry)
    (h : storeGet store e.id = none) : storePut store e = store ++ [e] := by
  unfold storePut
  rw [storeGet_eq_none] at h
  rw [if_neg]
  simp only [List.any_eq_true, decide_eq_true_eq]
  push_neg
  exact h

theorem find?_replace (e : AssetEntry) (store : List AssetEntry) :
    (store.any (fun x => x.id = e.id)) = true →
    (store.map (fun x => if x.id = e.id then e else x)).find?
        (fun x => x.id = e.id) = some e := by
  induction store with
  | nil => intro h; simp at h
  | cons x rest ih =>
    intro h
    by_cases hx : x.id = e.id
    · simp [hx, List.find?]
    · have hrest : (rest.any (fun x => x.id = e.id)) = true := by
        simp only [List.any_cons, Bool.or_eq_true] at h
        rcases h with h | h
        · exact absurd (by simpa using h) hx
        · exact h
      simp [hx, List.find?, ih hrest]

theorem find?_append_single (e : AssetEntry) (store : List AssetEntry) :
    (store.any (fun x => x.id = e.id)) = false →
    (store ++ [e]).find? (fun x => x.id = e.id) = some e := by
  induction store with
  | nil => intro _; simp [List.find?]
  | cons x rest ih =>
    intro h
    simp only [List.any_cons, Bool.or_eq_false_iff] at h
    have hx : ¬ x.id = e.id := by simpa using h.1
    simp only [List.cons_append, List.find?]
    rw [decide_eq_false hx]
    exact ih (by simpa using h.2)

theorem storeGet_storePut (store : List AssetEntry) (e : AssetEntry) :
    storeGet (storePut store e) e.id = some e := by
  unfold storeGet storePut
  by_cases h : (store.any (fun x => x.id = e.id)) = true
  · rw [if_pos h]
    exact find?_replace e store h
  · rw [if_neg h]
    exact find?_append_single e store (by simpa using h)

theorem storeGet_storeDelete (store : List AssetEntry) (k : String) :
    storeGet (storeDelete store k) k = none := by
  unfold storeGet storeDelete
  rw [List.find?_eq_none]
  intro e he
  have := List.of_mem_filter he
  simpa using this

theorem storeDelete_of_absent (store : List AssetEntry) (k : String)
    (h : storeGet store k = none) : storeDelete store k = store := by
  unfold storeDelete
  rw [storeGet_eq_none] at h
  rw [List.filter_eq_self]
  intro e he
  simpa using h e he

theorem cfind?_replace (k v : String) (cache : List (String × String)) :
    (cache.any (fun p => p.fst = k)) = true →
    (cache.map (fun p => if p.fst = k then (k, v) else p)).find?
        (fun p => p.fst = k) = some (k, v) := by
  induction cache with
  | nil => intro h; simp at h
  | cons p rest ih =>
    intro h
    by_cases hp : p.fst = k
    · simp [hp, List.find?]
    · have hrest : (rest.any (fun p => p.fst = k)) = true := by
        simp only [List.any_cons, Bool.or_eq_true] at h
        rcases h with h | h
        · exact absurd (by simpa using h) hp
        · exact h
      simp [hp, List.find?, ih hrest]

theorem cfind?_append (k v : String) (cache : List (String × String)) :
    (cache.any (fun p => p.fst = k)) = false →
    (cache ++ [(k, v)]).find? (fun p => p.fst = k) = some (k, v) := by
  induction cache with
  | nil => intro _; simp [List.find?]
  | cons p rest ih =>
    intro h
    simp only [List.any_cons, Bool.or_eq_false_iff] at h
    have hp : ¬ p.fst = k := by simpa using h.1
    simp only [List.cons_append, List.find?]
    rw [decide_eq_false hp]
    exact ih (by simpa using h.2)

theorem cacheGet_cacheSet (cache : List (String × String)) (k v : String) :
    cacheGet (cacheSet cache k v) k = some v := by
  unfold cacheGet cacheSet
  by_cases h : (cache.any (fun p => p.fst = k)) = true
  · rw [if_pos h, cfind?_replace k v cache h]
    rfl
  · rw [if_neg h, cfind?_append k v cache
      (by simp only [Bool.not_eq_true] at h; exact h)]
    rfl

theorem cacheGet_cacheDelete (cache : List (String × String)) (k : String) :
    cacheGet (cacheDelete cache k) k = none := by
  unfold cacheGet cacheDelete
  rw [Option.map_eq_none', List.find?_eq_none]
  intro p hp
  have := List.of_mem_filter hp
  simpa using this

theorem cacheDelete_of_absent (cache : List (String × String)) (k : String)
    (h : cacheGet cache k = none) : cacheDelete cache k = cache := by
  unfold cacheDelete
  unfold cacheGet at h
  rw [Option.map_eq_none', List.find?_eq_none] at h
  rw [List.filter_eq_self]
  intro p hp
  simpa using h p hp

theorem cacheGet_mem (cache : List (String × String)) (k v : String)
    (h : cacheGet cache k = some v) : (k, v) ∈ cache := by
  unfold cacheGet at h
  rw [Option.map_eq_some'] at h
  obtain ⟨p, hp, hv⟩ := h
  have hmem := List.mem_of_find?_eq_some hp
  have hk := List.find?_some hp
  have : p.fst = k := by simpa using hk
  rw [← hv, ← this]
  simpa using hmem

theorem foldl_size (store : List AssetEntry) : ∀ a : Nat,
    store.foldl (fun acc f => acc + f.size) a
      = a + (store.map AssetEntry.size).sum := by
  induction store with
  | nil => intro a; simp
  | cons f rest ih =>
    intro a
    simp only [List.foldl_cons, List.map_cons, List.sum_cons, ih]
    omega

/-! ### Write-path lemmas -/

/-- The record assembled by `addFile` for input `file`, optional display name
`nameArg`, at uuid-counter position `c`. -/
def addItem (file : InFile) (nameArg : Option String) (c : Nat) : AssetEntry :=
  { id := createFileID c
    name := jsOrElse nameArg
      (match file.fname with | some n => n | none => createFileID c)
    file := file.data
    size := file.data.length
    hash := "hash" }

theorem addFile_ok (st : ManagerState) (store : List AssetEntry)
    (file : InFile) (nameArg : Option String) (h : st.db = some store) :
    addFile st file nameArg =
      (Except.ok (createFileID st.idCounter),
        { st with
            idCounter := st.idCounter + 1
            db := some (storePut store (addItem file nameArg st.idCounter)) }) := by
  unfold addFile addItem
  simp only [h]

theorem FreshFrom_absent (store : List AssetEntry) (ctr : Nat)
    (hf : FreshFrom store ctr) : storeGet store (createFileID ctr) = none := by
  rw [storeGet_eq_none]
  intro e he
  exact hf e he ctr (le_refl ctr)

theorem FreshFrom_append (store : List AssetEntry) (e : AssetEntry) (ctr : Nat)
    (hf : FreshFrom store ctr) (he : e.id = createFileID ctr) :
    FreshFrom (store ++ [e]) (ctr + 1) := by
  intro x hx c hc
  rcases List.mem_append.mp hx with hx | hx
  · exact hf x hx c (by omega)
  · have hxe : x = e := by simpa using hx
    subst hxe
    rw [he]
    intro hcontra
    have := createFileID_inj hcontra
    omega

/-- Identifiers drawn by `n` consecutive calls of the id source starting at
counter position `ctr`. -/
def idRange (ctr n : Nat) : List String :=
  (List.range n).map (fun i => createFileID (ctr + i))

theorem idRange_succ (ctr n : Nat) :
    idRange ctr (n + 1) = createFileID ctr :: idRange (ctr + 1) n := by
  unfold idRange
  rw [List.range_succ_eq_map, List.map_cons, List.map_map]
  congr 1
  apply List.map_congr_left
  intro i _
  simp only [Function.comp_apply, Nat.succ_eq_add_one]
  congr 1
  omega

theorem idRange_nodup (ctr n : Nat) : (idRange ctr n).Nodup := by
  unfold idRange
  apply List.Nodup.map
  · intro a b hab
    have := createFileID_inj hab
    omega
  · exact List.nodup_range n

theorem idRange_mem (ctr n : Nat) (s : String) (hs : s ∈ idRange ctr n) :
    ∃ i, ctr ≤ i ∧ s = createFileID i := by
  unfold idRange at hs
  rw [List.mem_map] at hs
  obtain ⟨i, _, hi⟩ := hs
  exact ⟨ctr + i, by omega, hi.symm⟩

theorem uploadZip_ok : ∀ (zip : List ZipEntry) (st : ManagerState)
    (store : List AssetEntry), st.db = some store →
    FreshFrom store st.idCounter →
    ∃ recs : List AssetEntry,
      uploadZip st zip = (Except.ok (),
        { st with
            db := some (store ++ recs)
            idCounter :=
              st.idCounter + (zip.filter (fun e => !e.directory)).length }) ∧
      recs.map AssetEntry.name
        = (zip.filter (fun e => !e.directory)).map ZipEntry.filename ∧
      recs.map AssetEntry.file
        = (zip.filter (fun e => !e.directory)).map ZipEntry.data ∧
      recs.map AssetEntry.id
        = idRange st.idCounter (zip.filter (fun e => !e.directory)).length := by
  intro zip
  induction zip with
  | nil =>
    intro st store h _
    refine ⟨[], ?_, rfl, rfl, rfl⟩
    show (Except.ok (), st) = _
    rw [List.append_nil]
    cases st
    simp at h
    simp [h]
  | cons e rest ih =>
    intro st store h hf
    by_cases hd : e.directory
    · obtain ⟨recs, hrun, hnames, hdata, hids⟩ := ih st store h hf
      refine ⟨recs, ?_, ?_, ?_, ?_⟩ <;>
        simp only [uploadZip, hd, if_true, List.filter_cons, Bool.not_true,
          Bool.false_eq_true, if_false] <;>
        first
          | exact hrun
          | exact hnames
          | exact hdata
          | exact hids
    · have hstep := addFile_ok st store ⟨e.data, some e.filename⟩ none h
      set item := addItem ⟨e.data, some e.filename⟩ none st.idCounter with hitem
      have hput : storePut store item = store ++ [item] :=
        storePut_of_absent store item (FreshFrom_absent store st.idCounter hf)
      have hfresh1 : FreshFrom (store ++ [item]) (st.idCounter + 1) :=
        FreshFrom_append store item st.idCounter hf rfl
      obtain ⟨recs, hrun, hnames, hdata, hids⟩ :=
        ih { st with
              idCounter := st.idCounter + 1
              db := some (store ++ [item]) } (store ++ [item]) rfl hfresh1
      refine ⟨item :: recs, ?_, ?_, ?_, ?_⟩
      · simp only [uploadZip, hd, Bool.false_eq_true, if_false, hstep, hput]
        rw [hrun]
        simp only [List.filter_cons, hd, Bool.not_false, if_true,
          List.length_cons, List.append_assoc, List.singleton_append]
        have harith : st.idCounter + 1
              + (List.filter (fun x => !x.directory) rest).length
            = st.idCounter
              + ((List.filter (fun x => !x.directory) rest).length + 1) := by
          omega
        rw [harith]
      · simp only [List.map_cons, hnames]
        simp only [List.filter_cons, hd, Bool.not_false, if_true,
          List.map_cons]
        rfl
      · simp only [List.map_cons, hdata]
        simp only [List.filter_cons, hd, Bool.not_false, if_true,
          List.map_cons]
        rfl
      · simp only [List.map_cons, hids]
        simp only [List.filter_cons, hd, Bool.not_false, if_true,
          List.length_cons]
        rw [idRange_succ]
        rfl

/-! ### Remaining helper lemmas -/

theorem blob_url_ne_empty (s : String) : ¬("blob:" ++ s) = "" := by
  intro hcon
  have := congrArg String.data hcon
  simp [String.data_append] at this

theorem uploadZip_uninit : ∀ (zip : List ZipEntry) (st : ManagerState),
    st.db = none → (∃ e ∈ zip, e.directory = false) →
    (uploadZip st zip).fst = Except.error Err.notInitialized ∧
    (uploadZip st zip).snd.db = none ∧
    (uploadZip st zip).snd.urlCache = st.urlCache := by
  intro zip
  induction zip with
  | nil =>
    intro st _ hex
    obtain ⟨e, he, _⟩ := hex
    exact absurd he (List.not_mem_nil e)
  | cons e rest ih =>
    intro st h hex
    by_cases hd : e.directory
    · have hex2 : ∃ x ∈ rest, x.directory = false := by
        obtain ⟨x, hx, hxd⟩ := hex
        rcases List.mem_cons.mp hx with hx | hx
        · rw [hx] at hxd; rw [hxd] at hd; exact absurd hd (by simp)
        · exact ⟨x, hx, hxd⟩
      have := ih st h hex2
      simpa [uploadZip, hd] using this
    · have hstep : addFile st ⟨e.data, some e.filename⟩ none =
          (Except.error Err.notInitialized,
            { st with idCounter := st.idCounter + 1 }) := by
        unfold addFile
        simp only [h]
      simp [uploadZip, hd, hstep, h]

theorem uploadZip_alldir : ∀ (zip : List ZipEntry) (st : ManagerState),
    (∀ e ∈ zip, e.directory = true) → uploadZip st zip = (Except.ok (), st) := by
  intro zip
  induction zip with
  | nil => intro st _; rfl
  | cons e rest ih =>
    intro st hall
    have hd : e.directory = true := hall e (List.mem_cons_self e rest)
    have hrest : ∀ x ∈ rest, x.directory = true := by
      intro x hx; exact hall x (List.mem_cons_of_mem e hx)
    simp [uploadZip, hd, ih st hrest]

theorem zipLoop_nondir (fails : String → List Nat → Bool)
    (store : List AssetEntry) : ∀ used,
    ∀ e ∈ zipLoop fails store used, e.directory = false := by
  induction store with
  | nil => intro used e he; exact absurd he (List.not_mem_nil e)
  | cons f rest ih =>
    intro used e he
    simp only [zipLoop] at he
    rcases List.mem_append.mp he with he | he
    · by_cases hf : fails (uniqueName used f.name) f.file
      · rw [if_pos hf] at he
        exact absurd he (List.not_mem_nil e)
      · rw [if_neg hf] at he
        have : e = ⟨uniqueName used f.name, f.file, false⟩ := by simpa using he
        rw [this]
    · exact ih (used ++ [uniqueName used f.name]) e he

/-- Sequential additions through `addFile`, tracking only the state (the
returned ids are not needed for the usage accounting claim). -/
def addFiles : ManagerState → List InFile → ManagerState
  | st, [] => st
  | st, f :: rest => addFiles (addFile st f none).snd rest

theorem addFiles_usage : ∀ (files : List InFile) (st : ManagerState)
    (store : List AssetEntry), st.db = some store →
    FreshFrom store st.idCounter →
    ∃ store2, (addFiles st files).db = some store2 ∧
      (store2.map AssetEntry.size).sum
        = (store.map AssetEntry.size).sum
          + (files.map (fun f => f.data.length)).sum := by
  intro files
  induction files with
  | nil =>
    intro st store h _
    exact ⟨store, h, by simp⟩
  | cons f rest ih =>
    intro st store h hf
    have hstep := addFile_ok st store f none h
    set item := addItem f none st.idCounter with hitem
    have hput : storePut store item = store ++ [item] :=
      storePut_of_absent store item (FreshFrom_absent store st.idCounter hf)
    have hfresh1 : FreshFrom (store ++ [item]) (st.idCounter + 1) :=
      FreshFrom_append store item st.idCounter hf rfl
    obtain ⟨store2, hdb, hsum⟩ :=
      ih { st with
            idCounter := st.idCounter + 1
            db := some (store ++ [item]) } (store ++ [item]) rfl hfresh1
    refine ⟨store2, ?_, ?_⟩
    · simp only [addFiles, hstep, hput]
      exact hdb
    · rw [hsum]
      have hsz : item.size = f.data.length := rfl
      simp only [List.map_append, List.sum_append, List.map_cons,
        List.sum_cons, List.map_nil, List.sum_nil, hsz]
      omega

/-! ### Claim theorems -/

/-- C2: during `downloadAsZip`, records are iterated in store enumeration
order; a record whose display name is not yet used in the archive keeps it,
and a record whose name is already used is renamed by splitting at the last
`.` and appending `_N` to the stem, `N` starting at 1 and incrementing until
the composed name is unused (`specNames`/`specResolve` transcribe exactly
these spec words; the theorem proves the source loop refines them).  In
particular two records named `a.txt` export as `a.txt` and `a_1.txt`. -/
theorem C2_export_collision_renaming (st : ManagerState)
    (store : List AssetEntry) (h : st.db = some store) :
    ∃ zip, downloadAsZip noFail st = (Except.ok zip, st) ∧
      zip.map ZipEntry.filename = specNames (store.map AssetEntry.name) [] ∧
      zip.map ZipEntry.data = store.map AssetEntry.file ∧
      (downloadAsZip noFail (mkState
          [{ id := "asset:7", name := "a.txt", file := [0], size := 1,
             hash := "hash" },
           { id := "asset:8", name := "a.txt", file := [1], size := 1,
             hash := "hash" }])).fst
        = Except.ok [⟨"a.txt", [0], false⟩, ⟨"a_1.txt", [1], false⟩] := by
  refine ⟨zipLoop noFail store [], ?_, ?_, ?_, ?_⟩
  · unfold downloadAsZip
    rw [h]
  · exact zipLoop_noFail_names store []
  · exact zipLoop_noFail_data store []
  · rfl

/-- C3: round trip — feeding the archive produced by `downloadAsZip()` into
`uploadZip()` inserts exactly as many new assets as there were records, with
payloads byte-identical to the originals (names may differ by the collision
policy).  Freshness of the uuid source (the spec's probabilistic-uniqueness
assumption) is an explicit hypothesis. -/
theorem C3_zip_roundtrip (st : ManagerState) (store : List AssetEntry)
    (h : st.db = some store) (hf : FreshFrom store st.idCounter) :
    ∃ zip recs,
      downloadAsZip noFail st = (Except.ok zip, st) ∧
      (uploadZip st zip).fst = Except.ok () ∧
      (uploadZip st zip).snd.db = some (store ++ recs) ∧
      recs.length = store.length ∧
      recs.map AssetEntry.file = store.map AssetEntry.file := by
  refine ⟨zipLoop noFail store [], ?_⟩
  have hdl : downloadAsZip noFail st = (Except.ok (zipLoop noFail store []), st) := by
    unfold downloadAsZip
    rw [h]
  have hfilter : (zipLoop noFail store []).filter (fun e => !e.directory)
      = zipLoop noFail store [] := by
    rw [List.filter_eq_self]
    intro e he
    rw [zipLoop_nondir noFail store [] e he]
    rfl
  obtain ⟨recs, hrun, _, hdata, _⟩ :=
    uploadZip_ok (zipLoop noFail store []) st store h hf
  rw [hfilter] at hrun hdata
  rw [zipLoop_noFail_data store []] at hdata
  refine ⟨recs, hdl, ?_, ?_, ?_, hdata⟩
  · rw [hrun]
  · rw [hrun]
  · have h1 := congrArg List.length hdata
    simpa using h1

/-- C5: `uploadZip` inserts every non-directory archive entry as a brand-new
record through the `addFile` write path (the embedding of `uploadZip`
literally invokes `addFile`): names are taken verbatim from the entries'
stored filenames with no collision renaming, the generated ids are pairwise
distinct, and none of them collides with a pre-existing record, so duplicate
filenames become independent records. -/
theorem C5_uploadZip_inserts (st : ManagerState) (store : List AssetEntry)
    (zip : List ZipEntry) (h : st.db = some store)
    (hf : FreshFrom store st.idCounter) :
    ∃ recs,
      (uploadZip st zip).fst = Except.ok () ∧
      (uploadZip st zip).snd.db = some (store ++ recs) ∧
      recs.map AssetEntry.name
        = (zip.filter (fun e => !e.directory)).map ZipEntry.filename ∧
      recs.map AssetEntry.file
        = (zip.filter (fun e => !e.directory)).map ZipEntry.data ∧
      (recs.map AssetEntry.id).Nodup ∧
      (∀ r ∈ recs, ∀ x ∈ store, r.id ≠ x.id) := by
  obtain ⟨recs, hrun, hnames, hdata, hids⟩ := uploadZip_ok zip st store h hf
  refine ⟨recs, ?_, ?_, hnames, hdata, ?_, ?_⟩
  · rw [hrun]
  · rw [hrun]
  · rw [hids]
    exact idRange_nodup st.idCounter
      (zip.filter (fun e => !e.directory)).length
  · intro r hr x hx
    have hmem : r.id ∈ recs.map AssetEntry.id := List.mem_map_of_mem _ hr
    rw [hids] at hmem
    obtain ⟨i, hi, hid⟩ := idRange_mem st.idCounter
      (zip.filter (fun e => !e.directory)).length r.id hmem
    rw [hid]
    intro hcon
    exact hf x hx i hi hcon.symm

/-- C8: if `zipWriter.add` fails on particular entries (any failure oracle),
`downloadAsZip` still resolves with an archive, the failures are absorbed
locally (never an error to the caller), and the archive is exactly the
no-failure archive minus the failing entries — every other entry, including
its collision-renamed name, is unaffected. -/
theorem C8_export_skips_failed_entries (st : ManagerState)
    (store : List AssetEntry) (fails : String → List Nat → Bool)
    (h : st.db = some store) :
    downloadAsZip fails st =
      (Except.ok ((zipLoop noFail store []).filter
        (fun e => !(fails e.filename e.data))), st) := by
  unfold downloadAsZip
  rw [h]
  show (Except.ok (zipLoop fails store []), st) = _
  rw [zipLoop_filter fails store []]

theorem state_db_eta (st : ManagerState) (x : Option (List AssetEntry))
    (h : st.db = x) : ({ st with db := x } : ManagerState) = st := by
  subst h
  rfl

/-- C6: `getTotalUsage()` returns the sum of the `size` fields of the records
returned by `getAll()`; consequently after adding files of sizes s1..sn it
returns the previous total plus their sum (so exactly the sum when starting
empty), and it returns 0 after `clear()`. -/
theorem C6_total_usage (st : ManagerState) (store : List AssetEntry)
    (h : st.db = some store) :
    (getTotalUsage st).fst = Except.ok ((store.map AssetEntry.size).sum) ∧
    (∀ files : List InFile, FreshFrom store st.idCounter →
      (getTotalUsage (addFiles st files)).fst
        = Except.ok ((store.map AssetEntry.size).sum
            + (files.map (fun f => f.data.length)).sum)) ∧
    (getTotalUsage (clear st).snd).fst = Except.ok 0 := by
  refine ⟨?_, ?_, ?_⟩
  · unfold getTotalUsage
    rw [h]
    show Except.ok (store.foldl (fun acc f => acc + f.size) 0) = _
    rw [foldl_size store 0, Nat.zero_add]
  · intro files hf
    obtain ⟨store2, hdb, hsum⟩ := addFiles_usage files st store h hf
    unfold getTotalUsage
    rw [hdb]
    show Except.ok (store2.foldl (fun acc f => acc + f.size) 0) = _
    rw [foldl_size store2 0, Nat.zero_add, hsum]
  · unfold clear getTotalUsage
    simp only [h]
    rfl

/-- C7: `syncFile(payload, id)` at an id absent from the store succeeds,
returns that id, and `getFile(id)` afterwards finds a record carrying exactly
that id and the given payload. -/
theorem C7_syncFile_creates (st : ManagerState) (store : List AssetEntry)
    (file : InFile) (id : String) (h : st.db = some store)
    (habs : storeGet store id = none) :
    (syncFile st file id).fst = Except.ok id ∧
    ∃ r, (getFile (syncFile st file id).snd id).fst = Except.ok (some r) ∧
      r.id = id ∧ r.file = file.data := by
  set item : AssetEntry :=
    { id := id
      name := (match file.fname with | some n => n | none => id)
      file := file.data
      size := file.data.length
      hash := "hash" } with hitem
  have hs : syncFile st file id
      = (Except.ok id, { st with db := some (storePut store item) }) := by
    unfold syncFile
    simp only [h]
  refine ⟨by rw [hs], item, ?_, rfl, rfl⟩
  rw [hs]
  show Except.ok (storeGet (storePut store item) id) = Except.ok (some item)
  rw [show storeGet (storePut store item) id = some item
    from storeGet_storePut store item]

/-- C9: `deleteFile` on an id absent from the store does not fail and leaves
the store unchanged (a full no-op when the id is also uncached), and a
subsequent `getFileUrl` for that id returns null. -/
theorem C9_delete_absent (st : ManagerState) (store : List AssetEntry)
    (id : String) (h : st.db = some store) (habs : storeGet store id = none)
    (hwf : CacheWF st) :
    (deleteFile st id).fst = Except.ok () ∧
    (deleteFile st id).snd.db = some store ∧
    (cacheGet st.urlCache id = none → deleteFile st id = (Except.ok (), st)) ∧
    (getFileUrl (deleteFile st id).snd id).fst = Except.ok none := by
  have hsd : storeDelete store id = store := storeDelete_of_absent store id habs
  cases hcg : cacheGet st.urlCache id with
  | none =>
    have hdel : deleteFile st id = (Except.ok (), st) := by
      unfold deleteFile
      simp only [h, hsd, hcg]
      rw [state_db_eta st (some store) h]
    refine ⟨by rw [hdel], by rw [hdel]; exact h, fun _ => hdel, ?_⟩
    rw [hdel]
    unfold getFileUrl
    simp only [h, hcg, habs]
  | some url =>
    have hne : ¬ url = "" := hwf (id, url) (cacheGet_mem st.urlCache id url hcg)
    have hdel : deleteFile st id = (Except.ok (),
        { st with
            db := some store
            revoked := st.revoked ++ [url]
            urlCache := cacheDelete st.urlCache id }) := by
      unfold deleteFile
      simp only [h, hsd, hcg]
      rw [if_neg hne]
    refine ⟨by rw [hdel], by rw [hdel], ?_, ?_⟩
    · intro hcon
      exact Option.noConfusion hcon
    · rw [hdel]
      unfold getFileUrl
      simp only [cacheGet_cacheDelete, habs]

/-- C10: `syncFile` does not touch the URL cache — a display reference cached
for an id before `syncFile(payload, id)` is returned unchanged by the next
`getFileUrl(id)` (no fresh reference is minted; the cached one still
addresses the old payload). -/
theorem C10_syncFile_keeps_cache (st : ManagerState) (store : List AssetEntry)
    (file : InFile) (id url : String) (h : st.db = some store)
    (hc : cacheGet st.urlCache id = some url) :
    (syncFile st file id).snd.urlCache = st.urlCache ∧
    (getFileUrl (syncFile st file id).snd id).fst = Except.ok (some url) ∧
    (getFileUrl (syncFile st file id).snd id).snd = (syncFile st file id).snd := by
  have hs : syncFile st file id = (Except.ok id,
      { st with db := some (storePut store
          { id := id
            name := (match file.fname with | some n => n | none => id)
            file := file.data
            size := file.data.length
            hash := "hash" }) }) := by
    unfold syncFile
    simp only [h]
  refine ⟨by rw [hs], ?_, ?_⟩ <;>
    rw [hs] <;>
    unfold getFileUrl <;>
    simp only [hc]

/-- C4: after `addFile` yields an id, `getFileUrl(id)` resolves to a non-null
display reference; `deleteFile(id)` then revokes exactly that cached
reference and evicts it in the same operation, and an immediately following
`getFileUrl(id)` resolves to null. -/
theorem C4_add_url_delete (st : ManagerState) (store : List AssetEntry)
    (file : InFile) (nameArg : Option String)
    (h : st.db = some store) (hwf : CacheWF st) :
    ∃ u st1 st2,
      addFile st file nameArg
        = (Except.ok (createFileID st.idCounter), st1) ∧
      getFileUrl st1 (createFileID st.idCounter)
        = (Except.ok (some u), st2) ∧
      (deleteFile st2 (createFileID st.idCounter)).fst = Except.ok () ∧
      u ∈ (deleteFile st2 (createFileID st.idCounter)).snd.revoked ∧
      cacheGet (deleteFile st2 (createFileID st.idCounter)).snd.urlCache
        (createFileID st.idCounter) = none ∧
      (getFileUrl (deleteFile st2 (createFileID st.idCounter)).snd
        (createFileID st.idCounter)).fst = Except.ok none := by
  have hadd := addFile_ok st store file nameArg h
  set id := createFileID st.idCounter with hid
  set item := addItem file nameArg st.idCounter with hitem
  have hsg : storeGet (storePut store item) id = some item :=
    storeGet_storePut store item
  cases hcg : cacheGet st.urlCache id with
  | none =>
    refine ⟨"blob:" ++ Nat.repr st.urlCounter,
      { st with
          idCounter := st.idCounter + 1
          db := some (storePut store item) },
      { st with
          idCounter := st.idCounter + 1
          db := some (storePut store item)
          urlCounter := st.urlCounter + 1
          urlCache := cacheSet st.urlCache id
            ("blob:" ++ Nat.repr st.urlCounter) },
      hadd, ?_, ?_, ?_, ?_, ?_⟩
    · unfold getFileUrl
      simp only [hcg, hsg]
    · unfold deleteFile
      simp only [cacheGet_cacheSet]
      rw [if_neg (blob_url_ne_empty (Nat.repr st.urlCounter))]
    · unfold deleteFile
      simp only [cacheGet_cacheSet]
      rw [if_neg (blob_url_ne_empty (Nat.repr st.urlCounter))]
      simp
    · unfold deleteFile
      simp only [cacheGet_cacheSet]
      rw [if_neg (blob_url_ne_empty (Nat.repr st.urlCounter))]
      exact cacheGet_cacheDelete _ id
    · unfold deleteFile
      simp only [cacheGet_cacheSet]
      rw [if_neg (blob_url_ne_empty (Nat.repr st.urlCounter))]
      unfold getFileUrl
      simp only [cacheGet_cacheDelete, storeGet_storeDelete]
  | some u0 =>
    have hne : ¬ u0 = "" := hwf (id, u0) (cacheGet_mem st.urlCache id u0 hcg)
    refine ⟨u0,
      { st with
          idCounter := st.idCounter + 1
          db := some (storePut store item) },
      { st with
          idCounter := st.idCounter + 1
          db := some (storePut store item) },
      hadd, ?_, ?_, ?_, ?_, ?_⟩
    · unfold getFileUrl
      simp only [hcg]
    · unfold deleteFile
      simp only [hcg]
      rw [if_neg hne]
    · unfold deleteFile
      simp only [hcg]
      rw [if_neg hne]
      simp
    · unfold deleteFile
      simp only [hcg]
      rw [if_neg hne]
      exact cacheGet_cacheDelete _ id
    · unfold deleteFile
      simp only [hcg]
      rw [if_neg hne]
      unfold getFileUrl
      simp only [cacheGet_cacheDelete, storeGet_storeDelete]

/-- C1 (amended): while the store handle is absent, `addFile`,
`addAssetEntry`, `getFile`, `syncFile`, `getFileUrl`, `getTotalUsage` and
`downloadAsZip` fail with NotInitialized leaving the store contents and URL
cache unchanged (`addFile` only consumes a uuid draw), and `uploadZip` fails
the same way exactly when the archive holds a non-directory entry (an
archive of only directory markers succeeds untouched).  `deleteFile` and
`clear`, whose store accesses sit behind optional chaining, do NOT fail:
they skip the store but still run their URL-cache invalidation. -/
theorem C1_uninitialized_guards (st : ManagerState) (h : st.db = none) :
    (∀ file nameArg,
      (addFile st file nameArg).fst = Except.error Err.notInitialized ∧
      (addFile st file nameArg).snd.db = none ∧
      (addFile st file nameArg).snd.urlCache = st.urlCache) ∧
    (∀ e, addAssetEntry st e = (Except.error Err.notInitialized, st)) ∧
    (∀ i, getFile st i = (Except.error Err.notInitialized, st)) ∧
    (∀ file i, syncFile st file i = (Except.error Err.notInitialized, st)) ∧
    (∀ i, getFileUrl st i = (Except.error Err.notInitialized, st)) ∧
    getTotalUsage st = (Except.error Err.notInitialized, st) ∧
    (∀ fails, downloadAsZip fails st = (Except.error Err.notInitialized, st)) ∧
    (∀ zip, (∃ e ∈ zip, e.directory = false) →
      (uploadZip st zip).fst = Except.error Err.notInitialized ∧
      (uploadZip st zip).snd.db = none ∧
      (uploadZip st zip).snd.urlCache = st.urlCache) ∧
    (∀ zip, (∀ e ∈ zip, e.directory = true) →
      uploadZip st zip = (Except.ok (), st)) ∧
    (∀ i, (deleteFile st i).fst = Except.ok () ∧
      (deleteFile st i).snd.db = none ∧
      (cacheGet st.urlCache i = none →
        deleteFile st i = (Except.ok (), st))) ∧
    ((clear st).fst = Except.ok () ∧ (clear st).snd.db = none ∧
      (clear st).snd.urlCache = []) := by
  refine ⟨?_, ?_, ?_, ?_, ?_, ?_, ?_, ?_, ?_, ?_, ?_⟩
  · intro file nameArg
    unfold addFile
    simp only [h]
    exact ⟨trivial, trivial, trivial⟩
  · intro e
    unfold addAssetEntry
    simp only [h]
  · intro i
    unfold getFile
    simp only [h]
  · intro file i
    unfold syncFile
    simp only [h]
  · intro i
    unfold getFileUrl
    simp only [h]
  · unfold getTotalUsage
    simp only [h]
  · intro fails
    unfold downloadAsZip
    simp only [h]
  · intro zip hex
    exact uploadZip_uninit zip st h hex
  · intro zip hall
    exact uploadZip_alldir zip st hall
  · intro i
    unfold deleteFile
    simp only [h]
    cases hcg : cacheGet st.urlCache i with
    | none =>
      refine ⟨rfl, rfl, fun _ => ?_⟩
      rw [state_db_eta st none h]
    | some url =>
      refine ⟨?_, ?_, fun hcon => Option.noConfusion hcon⟩ <;>
        by_cases hu : url = "" <;>
        simp [hu]
  · unfold clear
    simp only [h]
    exact ⟨trivial, trivial, trivial⟩

/-- C1 counterexample: the claim as stated requires `deleteFile` to fail
with NotInitialized on an uninitialized store, but on a concrete
uninitialized manager `deleteFile` resolves successfully (optional chaining
skips the store access). -/
theorem C1_counterexample :
    deleteFile
        { db := none, urlCache := [], idCounter := 0, urlCounter := 0,
          revoked := [] } "asset:0"
      = (Except.ok (),
          { db := none, urlCache := [], idCounter := 0, urlCounter := 0,
            revoked := [] }) := by
  rfl

/-! ### Concrete witnesses -/

theorem createFileID_head (c : Nat) :
    (createFileID c).data.head? = some 'a' := by
  show ("asset:" ++ Nat.repr c).data.head? = some 'a'
  rw [String.data_append]
  rfl

theorem FreshFrom_doc :
    FreshFrom [⟨"doc", "a.txt", [1, 2, 3], 3, "hash"⟩] 0 := by
  intro e he c _
  have he2 : e = ⟨"doc", "a.txt", [1, 2, 3], 3, "hash"⟩ := by simpa using he
  subst he2
  intro hcon
  have h1 : ("doc" : String).data.head? = (createFileID c).data.head? := by
    rw [show ("doc" : String) = AssetEntry.id ⟨"doc", "a.txt", [1, 2, 3], 3, "hash"⟩ from rfl]
    rw [hcon]
  rw [createFileID_head c] at h1
  exact absurd h1 (by decide)

theorem C1_uninitialized_guards_witness :
    getTotalUsage
        { db := none, urlCache := [], idCounter := 0, urlCounter := 0,
          revoked := [] }
      = (Except.error Err.notInitialized,
          { db := none, urlCache := [], idCounter := 0, urlCounter := 0,
            revoked := [] }) ∧
    (clear { db := none, urlCache := [], idCounter := 0, urlCounter := 0,
             revoked := [] }).fst = Except.ok () :=
  ⟨(C1_uninitialized_guards _ rfl).2.2.2.2.2.1,
    (C1_uninitialized_guards _ rfl).2.2.2.2.2.2.2.2.2.2.1⟩

theorem C2_export_collision_renaming_witness :
    ∃ zip, downloadAsZip noFail (mkState []) = (Except.ok zip, mkState []) ∧
      zip.map ZipEntry.filename
        = specNames (([] : List AssetEntry).map AssetEntry.name) [] ∧
      zip.map ZipEntry.data = ([] : List AssetEntry).map AssetEntry.file ∧
      (downloadAsZip noFail (mkState
          [{ id := "asset:7", name := "a.txt", file := [0], size := 1,
             hash := "hash" },
           { id := "asset:8", name := "a.txt", file := [1], size := 1,
             hash := "hash" }])).fst
        = Except.ok [⟨"a.txt", [0], false⟩, ⟨"a_1.txt", [1], false⟩] :=
  C2_export_collision_renaming (mkState []) [] rfl

theorem C3_zip_roundtrip_witness :
    ∃ zip recs,
      downloadAsZip noFail (mkState [⟨"doc", "a.txt", [1, 2, 3], 3, "hash"⟩])
        = (Except.ok zip, mkState [⟨"doc", "a.txt", [1, 2, 3], 3, "hash"⟩]) ∧
      (uploadZip (mkState [⟨"doc", "a.txt", [1, 2, 3], 3, "hash"⟩]) zip).fst
        = Except.ok () ∧
      (uploadZip (mkState [⟨"doc", "a.txt", [1, 2, 3], 3, "hash"⟩]) zip).snd.db
        = some ([⟨"doc", "a.txt", [1, 2, 3], 3, "hash"⟩] ++ recs) ∧
      recs.length
        = ([⟨"doc", "a.txt", [1, 2, 3], 3, "hash"⟩] : List AssetEntry).length ∧
      recs.map AssetEntry.file
        = [⟨"doc", "a.txt", [1, 2, 3], 3, "hash"⟩].map AssetEntry.file :=
  C3_zip_roundtrip (mkState [⟨"doc", "a.txt", [1, 2, 3], 3, "hash"⟩])
    [⟨"doc", "a.txt", [1, 2, 3], 3, "hash"⟩] rfl FreshFrom_doc

theorem C4_add_url_delete_witness :
    ∃ u st1 st2,
      addFile (mkState []) ⟨[5], some "f.bin"⟩ none
        = (Except.ok (createFileID 0), st1) ∧
      getFileUrl st1 (createFileID 0) = (Except.ok (some u), st2) ∧
      (deleteFile st2 (createFileID 0)).fst = Except.ok () ∧
      u ∈ (deleteFile st2 (createFileID 0)).snd.revoked ∧
      cacheGet (deleteFile st2 (createFileID 0)).snd.urlCache
        (createFileID 0) = none ∧
      (getFileUrl (deleteFile st2 (createFileID 0)).snd
        (createFileID 0)).fst = Except.ok none :=
  C4_add_url_delete (mkState []) [] ⟨[5], some "f.bin"⟩ none rfl
    (fun p hp => absurd hp (List.not_mem_nil p))

theorem C5_uploadZip_inserts_witness :
    ∃ recs,
      (uploadZip (mkState [])
          [⟨"x.txt", [1], false⟩, ⟨"x.txt", [2], false⟩, ⟨"d/", [], true⟩]).fst
        = Except.ok () ∧
      (uploadZip (mkState [])
          [⟨"x.txt", [1], false⟩, ⟨"x.txt", [2], false⟩, ⟨"d/", [], true⟩]).snd.db
        = some ([] ++ recs) ∧
      recs.map AssetEntry.name
        = ([⟨"x.txt", [1], false⟩, ⟨"x.txt", [2], false⟩,
            ⟨"d/", [], true⟩].filter (fun e => !e.directory)).map
              ZipEntry.filename ∧
      recs.map AssetEntry.file
        = ([⟨"x.txt", [1], false⟩, ⟨"x.txt", [2], false⟩,
            ⟨"d/", [], true⟩].filter (fun e => !e.directory)).map
              ZipEntry.data ∧
      (recs.map AssetEntry.id).Nodup ∧
      (∀ r ∈ recs, ∀ x ∈ ([] : List AssetEntry), r.id ≠ x.id) :=
  C5_uploadZip_inserts (mkState []) []
    [⟨"x.txt", [1], false⟩, ⟨"x.txt", [2], false⟩, ⟨"d/", [], true⟩] rfl
    (fun e he => absurd he (List.not_mem_nil e))

theorem C6_total_usage_witness :
    (getTotalUsage (addFiles (mkState [])
        [⟨[1, 2, 3], none⟩, ⟨[4], none⟩])).fst = Except.ok 4 ∧
    (getTotalUsage (clear (mkState [])).snd).fst = Except.ok 0 :=
  ⟨(C6_total_usage (mkState []) [] rfl).2.1 [⟨[1, 2, 3], none⟩, ⟨[4], none⟩]
      (fun e he => absurd he (List.not_mem_nil e)),
    (C6_total_usage (mkState []) [] rfl).2.2⟩

theorem C7_syncFile_creates_witness :
    (syncFile (mkState []) ⟨[9], some "n.txt"⟩ "file:7").fst
      = Except.ok "file:7" ∧
    ∃ r, (getFile (syncFile (mkState []) ⟨[9], some "n.txt"⟩ "file:7").snd
        "file:7").fst = Except.ok (some r) ∧
      r.id = "file:7" ∧ r.file = [9] :=
  C7_syncFile_creates (mkState []) [] ⟨[9], some "n.txt"⟩ "file:7" rfl rfl

theorem C8_export_skips_failed_entries_witness :
    downloadAsZip (fun n _ => n = "b.txt")
        (mkState [⟨"i1", "a.txt", [1], 1, "hash"⟩,
          ⟨"i2", "b.txt", [2], 1, "hash"⟩])
      = (Except.ok ((zipLoop noFail [⟨"i1", "a.txt", [1], 1, "hash"⟩,
            ⟨"i2", "b.txt", [2], 1, "hash"⟩] []).filter
          (fun e => !((fun (n : String) (_ : List Nat) =>
            (decide (n = "b.txt") : Bool)) e.filename e.data))),
          mkState [⟨"i1", "a.txt", [1], 1, "hash"⟩,
            ⟨"i2", "b.txt", [2], 1, "hash"⟩]) :=
  C8_export_skips_failed_entries
    (mkState [⟨"i1", "a.txt", [1], 1, "hash"⟩,
      ⟨"i2", "b.txt", [2], 1, "hash"⟩])
    [⟨"i1", "a.txt", [1], 1, "hash"⟩, ⟨"i2", "b.txt", [2], 1, "hash"⟩]
    (fun n _ => n = "b.txt") rfl

theorem C9_delete_absent_witness :
    (deleteFile (mkState []) "file:9").fst = Except.ok () ∧
    deleteFile (mkState []) "file:9" = (Except.ok (), mkState []) ∧
    (getFileUrl (deleteFile (mkState []) "file:9").snd "file:9").fst
      = Except.ok none :=
  have hthm := C9_delete_absent (mkState []) [] "file:9" rfl rfl
    (fun p hp => absurd hp (List.not_mem_nil p))
  ⟨hthm.1, hthm.2.2.1 rfl, hthm.2.2.2⟩

theorem C10_syncFile_keeps_cache_witness :
    (syncFile { db := some [], urlCache := [("file:1", "blob:0")],
                idCounter := 0, urlCounter := 1, revoked := [] }
        ⟨[7], none⟩ "file:1").snd.urlCache = [("file:1", "blob:0")] ∧
    (getFileUrl (syncFile { db := some [],
                            urlCache := [("file:1", "blob:0")],
                            idCounter := 0, urlCounter := 1,
                            revoked := [] } ⟨[7], none⟩ "file:1").snd
        "file:1").fst
      = Except.ok (some "blob:0") ∧
    (getFileUrl (syncFile { db := some [],
                            urlCache := [("file:1", "blob:0")],
                            idCounter := 0, urlCounter := 1,
                            revoked := [] } ⟨[7], none⟩ "file:1").snd
        "file:1").snd
      = (syncFile { db := some [], urlCache := [("file:1", "blob:0")],
                    idCounter := 0, urlCounter := 1, revoked := [] }
          ⟨[7], none⟩ "file:1").snd :=
  C10_syncFile_keeps_cache
    { db := some [], urlCache := [("file:1", "blob:0")], idCounter := 0,
      urlCounter := 1, revoked := [] } [] ⟨[7], none⟩ "file:1" "blob:0"
    rfl rfl
